import Mathlib

/-!
Verification of the mcp-protocol-types wire model.

This development is a shallow embedding of the crate's serde-derived
serialization and deserialization behaviour.  JSON text is modelled as a
tree (`Json`) whose objects are ordered lists of key/value pairs that may
contain duplicate keys, exactly as a byte stream may.  A parsed
`serde_json::Value` stores objects as `BTreeMap<String, Value>`: keys are
sorted bytewise and a duplicate key is resolved last-wins.  That reading
of raw text into a `Value` is modelled by `canonicalize`, and the class of
trees representable as a `Value` is characterized by the boolean predicate
`Canon`.

Strings are compared by their character code points (`ltStr`), which
coincides with Rust's bytewise comparison of UTF-8 encoded strings because
UTF-8 preserves code-point order.
-/

mutual
inductive Json where
  | null
  | bool (b : Bool)
  | num (n : Int)
  | numF (q : Rat)
  | str (s : String)
  | arr (xs : JArr)
  | obj (fs : JObj)
deriving DecidableEq, Repr

/-- A JSON array, as an ordered list of elements. -/
inductive JArr where
  | nil
  | cons (hd : Json) (tl : JArr)
deriving DecidableEq, Repr

/-- A JSON object, as an ordered list of key/value pairs (duplicates allowed:
this is the shape of the *text*, not of a parsed `serde_json::Value`). -/
inductive JObj where
  | nil
  | cons (k : String) (v : Json) (tl : JObj)
deriving DecidableEq, Repr
end

/-- Strict character order by code point (the order Rust's `BTreeMap` induces
on UTF-8 strings, bytewise). -/
def ltChars : List Char → List Char → Bool
  | [], [] => false
  | [], _ :: _ => true
  | _ :: _, [] => false
  | c :: cs, d :: ds =>
    if c.val.toNat < d.val.toNat then true
    else if d.val.toNat < c.val.toNat then false
    else ltChars cs ds

/-- Strict string order: lexicographic on code points. -/
def ltStr (s t : String) : Bool := ltChars s.data t.data

theorem ltChars_irrefl (l : List Char) : ltChars l l = false := by
  induction l with
  | nil => rfl
  | cons c cs ih => simp [ltChars, ih]

theorem char_eq_of_toNat_eq {x y : Char} (h : x.val.toNat = y.val.toNat) : x = y :=
  Char.ext (UInt32.ext h)

theorem ltChars_trans : ∀ (a b c : List Char),
    ltChars a b = true → ltChars b c = true → ltChars a c = true
  | [], [], _, hab, _ => by simp [ltChars] at hab
  | [], _ :: _, [], _, hbc => by simp [ltChars] at hbc
  | [], _ :: _, _ :: _, _, _ => by simp [ltChars]
  | _ :: _, [], _, hab, _ => by simp [ltChars] at hab
  | _ :: _, _ :: _, [], _, hbc => by simp [ltChars] at hbc
  | x :: xs, y :: ys, z :: zs, hab, hbc => by
    simp only [ltChars] at hab hbc ⊢
    rcases Nat.lt_trichotomy x.val.toNat y.val.toNat with h1 | h1 | h1
    · rcases Nat.lt_trichotomy y.val.toNat z.val.toNat with h2 | h2 | h2
      · rw [if_pos (by omega)]
      · rw [if_pos (by omega)]
      · rw [if_neg (by omega), if_pos (by omega)] at hbc
        exact absurd hbc (by simp)
    · rcases Nat.lt_trichotomy y.val.toNat z.val.toNat with h2 | h2 | h2
      · rw [if_pos (by omega)]
      · rw [if_neg (by omega), if_neg (by omega)] at hab
        rw [if_neg (by omega), if_neg (by omega)] at hbc
        rw [if_neg (by omega), if_neg (by omega)]
        exact ltChars_trans xs ys zs hab hbc
      · rw [if_neg (by omega), if_pos (by omega)] at hbc
        exact absurd hbc (by simp)
    · rw [if_neg (by omega), if_pos (by omega)] at hab
      exact absurd hab (by simp)

theorem ltChars_total : ∀ (a b : List Char),
    ltChars a b = false → a ≠ b → ltChars b a = true
  | [], [], _, hne => absurd rfl hne
  | [], _ :: _, hab, _ => by simp [ltChars] at hab
  | _ :: _, [], _, _ => by simp [ltChars]
  | x :: xs, y :: ys, hab, hne => by
    simp only [ltChars] at hab ⊢
    rcases Nat.lt_trichotomy x.val.toNat y.val.toNat with h1 | h1 | h1
    · rw [if_pos h1] at hab
      exact absurd hab (by simp)
    · have hxy : x = y := char_eq_of_toNat_eq h1
      subst hxy
      rw [if_neg (by omega), if_neg (by omega)] at hab
      rw [if_neg (by omega), if_neg (by omega)]
      exact ltChars_total xs ys hab (fun h => hne (by rw [h]))
    · rw [if_pos h1]

theorem ltStr_irrefl (s : String) : ltStr s s = false := ltChars_irrefl s.data

theorem ltStr_trans {a b c : String} (h1 : ltStr a b = true) (h2 : ltStr b c = true) :
    ltStr a c = true := ltChars_trans a.data b.data c.data h1 h2

theorem ltStr_total {a b : String} (h1 : ltStr a b = false) (h2 : a ≠ b) :
    ltStr b a = true := by
  refine ltChars_total a.data b.data h1 ?_
  intro hd
  exact h2 (by cases a; cases b; exact congrArg String.mk hd)

theorem ltStr_ne {a b : String} (h : ltStr a b = true) : a ≠ b := by
  intro he
  rw [he] at h
  exact absurd h (by simp [ltStr_irrefl])

theorem ltStr_asymm {a b : String} (h : ltStr a b = true) : ltStr b a = false := by
  by_contra hc
  have : ltStr b a = true := by
    cases hba : ltStr b a with
    | false => exact absurd hba hc
    | true => rfl
  exact absurd (ltStr_trans h this) (by simp [ltStr_irrefl])

def JObj.append : JObj → JObj → JObj
  | .nil, ys => ys
  | .cons k v tl, ys => .cons k v (JObj.append tl ys)

theorem JObj.append_nil : ∀ (xs : JObj), xs.append .nil = xs
  | .nil => rfl
  | .cons k v tl => by simp [JObj.append, JObj.append_nil tl]

theorem JObj.append_assoc : ∀ (a b c : JObj),
    (a.append b).append c = a.append (b.append c)
  | .nil, _, _ => rfl
  | .cons k v tl, b, c => by simp [JObj.append, JObj.append_assoc tl b c]

/-- Membership of a key in an object's key list. -/
def JObj.keyMem (k : String) : JObj → Bool
  | .nil => false
  | .cons k' _ tl => k == k' || JObj.keyMem k tl

theorem JObj.keyMem_append (k : String) : ∀ (a b : JObj),
    JObj.keyMem k (a.append b) = (JObj.keyMem k a || JObj.keyMem k b)
  | .nil, b => by simp [JObj.append, JObj.keyMem]
  | .cons k' v tl, b => by
    simp [JObj.append, JObj.keyMem, JObj.keyMem_append k tl b, Bool.or_assoc]

/-- Insertion into a key-sorted pair list, replacing an equal key
(`BTreeMap::insert`: last write wins). -/
def insertKV (k : String) (v : Json) : JObj → JObj
  | .nil => .cons k v .nil
  | .cons k' v' tl =>
    if ltStr k k' then .cons k v (.cons k' v' tl)
    else if k = k' then .cons k v tl
    else .cons k' v' (insertKV k v tl)

/-- Folding a pair list into a `BTreeMap` by repeated insertion, in order. -/
def insFold (acc : JObj) : JObj → JObj
  | .nil => acc
  | .cons k v tl => insFold (insertKV k v acc) tl

mutual
/-- Reading a JSON text tree as a `serde_json::Value`: inside every object the
keys are sorted bytewise and duplicates collapse last-wins, recursively. -/
def canonicalize : Json → Json
  | .null => .null
  | .bool b => .bool b
  | .num n => .num n
  | .numF q => .numF q
  | .str s => .str s
  | .arr xs => .arr (canonList xs)
  | .obj fs => .obj (insFold .nil (canonPairs fs))

def canonList : JArr → JArr
  | .nil => .nil
  | .cons x tl => .cons (canonicalize x) (canonList tl)

def canonPairs : JObj → JObj
  | .nil => .nil
  | .cons k v tl => .cons k (canonicalize v) (canonPairs tl)
end

/-- Head-key bound: `k` is strictly below the first key of the object. -/
def ltHead (k : String) : JObj → Bool
  | .nil => true
  | .cons k' _ _ => ltStr k k'

mutual
/-- `Canon j` holds when `j` is representable as a parsed `serde_json::Value`:
every object in it has strictly increasing keys. -/
def Canon : Json → Bool
  | .null => true
  | .bool _ => true
  | .num _ => true
  | .numF _ => true
  | .str _ => true
  | .arr xs => canonL xs
  | .obj fs => canonF fs

def canonL : JArr → Bool
  | .nil => true
  | .cons x tl => Canon x && canonL tl

def canonF : JObj → Bool
  | .nil => true
  | .cons k v tl => Canon v && ltHead k tl && canonF tl
end

/-- All values of a pair list are canonical (no key condition). -/
def valsCanon : JObj → Bool
  | .nil => true
  | .cons _ v tl => Canon v && valsCanon tl

theorem ltHead_insertKV {k' k : String} {v : Json} {fs : JObj}
    (h1 : ltStr k' k = true) (h2 : ltHead k' fs = true) :
    ltHead k' (insertKV k v fs) = true := by
  cases fs with
  | nil => simpa [insertKV, ltHead] using h1
  | cons k2 v2 tl =>
    simp only [insertKV]
    split_ifs with hlt heq
    · simpa [ltHead] using h1
    · simpa [ltHead] using h1
    · simpa [ltHead] using h2

theorem canonF_insertKV (k : String) (v : Json) (hv : Canon v = true) :
    ∀ (fs : JObj), canonF fs = true → canonF (insertKV k v fs) = true
  | .nil, _ => by simp [insertKV, canonF, ltHead, hv]
  | .cons k' v' tl, hf => by
    have hv' : Canon v' = true := by
      simp only [canonF, Bool.and_eq_true] at hf; exact hf.1.1
    have hh : ltHead k' tl = true := by
      simp only [canonF, Bool.and_eq_true] at hf; exact hf.1.2
    have ht : canonF tl = true := by
      simp only [canonF, Bool.and_eq_true] at hf; exact hf.2
    simp only [insertKV]
    split_ifs with hlt heq
    · simp only [canonF, Bool.and_eq_true]
      exact ⟨⟨hv, by simpa [ltHead] using hlt⟩, ⟨hv', hh⟩, ht⟩
    · subst heq
      simp only [canonF, Bool.and_eq_true]
      exact ⟨⟨hv, hh⟩, ht⟩
    · have hlt' : ltStr k' k = true :=
        ltStr_total (by cases h : ltStr k k' with
          | false => rfl
          | true => exact absurd h hlt) (by intro h; exact heq h)
      simp only [canonF, Bool.and_eq_true]
      exact ⟨⟨hv', ltHead_insertKV hlt' hh⟩, canonF_insertKV k v hv tl ht⟩

theorem canonF_insFold :
    ∀ (ps acc : JObj), valsCanon ps = true → canonF acc = true →
      canonF (insFold acc ps) = true
  | .nil, acc, _, hacc => by simpa [insFold] using hacc
  | .cons k v tl, acc, hps, hacc => by
    have hv : Canon v = true := by
      simp only [valsCanon, Bool.and_eq_true] at hps; exact hps.1
    have htl : valsCanon tl = true := by
      simp only [valsCanon, Bool.and_eq_true] at hps; exact hps.2
    simpa [insFold] using
      canonF_insFold tl (insertKV k v acc) htl (canonF_insertKV k v hv acc hacc)

mutual
theorem canon_canonicalize : ∀ (j : Json), Canon (canonicalize j) = true
  | .null => rfl
  | .bool _ => rfl
  | .num _ => rfl
  | .numF _ => rfl
  | .str _ => rfl
  | .arr xs => by simpa [canonicalize, Canon] using canonL_canonList xs
  | .obj fs => by
    simp only [canonicalize, Canon]
    exact canonF_insFold (canonPairs fs) .nil (valsCanon_canonPairs fs) rfl

theorem canonL_canonList : ∀ (xs : JArr), canonL (canonList xs) = true
  | .nil => rfl
  | .cons x tl => by
    simp [canonList, canonL, canon_canonicalize x, canonL_canonList tl]

theorem valsCanon_canonPairs : ∀ (fs : JObj), valsCanon (canonPairs fs) = true
  | .nil => rfl
  | .cons k v tl => by
    simp [canonPairs, valsCanon, canon_canonicalize v, valsCanon_canonPairs tl]
end

theorem canonF_vals : ∀ (fs : JObj), canonF fs = true → valsCanon fs = true
  | .nil, _ => rfl
  | .cons k v tl, h => by
    simp only [canonF, Bool.and_eq_true] at h
    simp [valsCanon, h.1.1, canonF_vals tl h.2]

theorem canonF_keyMem_lt : ∀ (fs : JObj) (k0 k : String), canonF fs = true →
    ltHead k0 fs = true → JObj.keyMem k fs = true → ltStr k0 k = true
  | .nil, k0, k, _, _, hm => by simp [JObj.keyMem] at hm
  | .cons k1 v1 tl, k0, k, hf, hh, hm => by
    simp only [canonF, Bool.and_eq_true] at hf
    simp only [JObj.keyMem, Bool.or_eq_true, beq_iff_eq] at hm
    have hh1 : ltStr k0 k1 = true := by simpa [ltHead] using hh
    rcases hm with rfl | hm
    · exact hh1
    · exact ltStr_trans hh1 (canonF_keyMem_lt tl k1 k hf.2 hf.1.2 hm)

theorem insertKV_append {k : String} {v : Json} {tl : JObj} : ∀ (acc : JObj),
    canonF (acc.append (.cons k v tl)) = true →
    insertKV k v acc = acc.append (.cons k v .nil)
  | .nil, _ => by simp [insertKV, JObj.append]
  | .cons k0 v0 acc', h => by
    simp only [JObj.append, canonF, Bool.and_eq_true] at h
    have hmem : JObj.keyMem k (acc'.append (.cons k v tl)) = true := by
      simp [JObj.keyMem_append, JObj.keyMem]
    have hk0k : ltStr k0 k = true := canonF_keyMem_lt _ k0 k h.2 h.1.2 hmem
    simp only [insertKV, JObj.append]
    rw [if_neg, if_neg]
    · rw [insertKV_append acc' h.2]
    · intro he; exact (ltStr_ne hk0k) he.symm
    · simp [ltStr_asymm hk0k]

theorem insFold_sorted :
    ∀ (fs acc : JObj), canonF (acc.append fs) = true → insFold acc fs = acc.append fs
  | .nil, acc, _ => by simp [insFold, JObj.append_nil]
  | .cons k v tl, acc, h => by
    simp only [insFold]
    rw [insertKV_append acc h]
    have hassoc : (acc.append (.cons k v .nil)).append tl = acc.append (.cons k v tl) := by
      rw [JObj.append_assoc]; rfl
    rw [insFold_sorted tl (acc.append (.cons k v .nil)) (by rw [hassoc]; exact h), hassoc]

mutual
theorem canonicalize_eq_self : ∀ (j : Json), Canon j = true → canonicalize j = j
  | .null, _ => rfl
  | .bool _, _ => rfl
  | .num _, _ => rfl
  | .numF _, _ => rfl
  | .str _, _ => rfl
  | .arr xs, h => by
    simp only [canonicalize]
    rw [canonList_eq_self xs (by simpa [Canon] using h)]
  | .obj fs, h => by
    have hf : canonF fs = true := by simpa [Canon] using h
    simp only [canonicalize]
    rw [canonPairs_eq_self fs (canonF_vals fs hf)]
    exact congrArg Json.obj (insFold_sorted fs .nil hf)

theorem canonList_eq_self : ∀ (xs : JArr), canonL xs = true → canonList xs = xs
  | .nil, _ => rfl
  | .cons x tl, h => by
    simp only [canonL, Bool.and_eq_true] at h
    simp only [canonList]
    rw [canonicalize_eq_self x h.1, canonList_eq_self tl h.2]

theorem canonPairs_eq_self : ∀ (fs : JObj), valsCanon fs = true → canonPairs fs = fs
  | .nil, _ => rfl
  | .cons k v tl, h => by
    simp only [valsCanon, Bool.and_eq_true] at h
    simp only [canonPairs]
    rw [canonicalize_eq_self v h.1, canonPairs_eq_self tl h.2]
end

theorem keyMem_insertKV {k' k : String} {v : Json} : ∀ (fs : JObj),
    JObj.keyMem k' (insertKV k v fs) = true → k' = k ∨ JObj.keyMem k' fs = true
  | .nil, h => by
    simp only [insertKV, JObj.keyMem, Bool.or_eq_true, beq_iff_eq] at h
    rcases h with h | h
    · exact Or.inl h
    · exact absurd h (by simp)
  | .cons k2 v2 tl, h => by
    simp only [insertKV] at h
    split_ifs at h with hlt heq
    · simp only [JObj.keyMem, Bool.or_eq_true, beq_iff_eq] at h ⊢
      tauto
    · subst heq
      simp only [JObj.keyMem, Bool.or_eq_true, beq_iff_eq] at h ⊢
      tauto
    · simp only [JObj.keyMem, Bool.or_eq_true, beq_iff_eq] at h ⊢
      rcases h with h | h
      · tauto
      · rcases keyMem_insertKV tl h with h | h
        · exact Or.inl h
        · tauto

theorem keyMem_insFold :
    ∀ (ps acc : JObj) {k' : String}, JObj.keyMem k' (insFold acc ps) = true →
      JObj.keyMem k' acc = true ∨ JObj.keyMem k' ps = true
  | .nil, acc, k', h => by simpa [insFold] using Or.inl h
  | .cons k v tl, acc, k', h => by
    simp only [insFold] at h
    rcases keyMem_insFold tl (insertKV k v acc) h with h1 | h1
    · rcases keyMem_insertKV acc h1 with h2 | h2
      · subst h2
        exact Or.inr (by simp [JObj.keyMem])
      · exact Or.inl h2
    · exact Or.inr (by simp [JObj.keyMem, h1])

theorem keyMem_canonPairs (k : String) :
    ∀ (fs : JObj), JObj.keyMem k (canonPairs fs) = JObj.keyMem k fs
  | .nil => rfl
  | .cons k' v tl => by
    simp [canonPairs, JObj.keyMem, keyMem_canonPairs k tl]

/-- Canonicalizing a tree that is not `null` never yields `null`. -/
theorem canonicalize_ne_null {j : Json} (h : j ≠ .null) : canonicalize j ≠ .null := by
  cases j <;> simp [canonicalize] at h ⊢

/-! ## Protocol constants (src/lib.rs) -/

/-- JSON-RPC version used by MCP. -/
def JSONRPC_VERSION : String := "2.0"

/-- Current MCP protocol version supported by the crate. -/
def MCP_VERSION : String := "2024-11-05"

/-- Decoder result: `serde_json::Result`, with the error collapsed to its
message text. -/
abbrev Dec (A : Type) := Except String A

/-! ## Request identifier (src/protocol.rs, serde untagged) -/

inductive RequestId where
  | String (s : String)
  | Number (n : Int)
  | Null
deriving DecidableEq, Repr

/-- serde only matches the `Number` variant for JSON integers that fit in an
`i64`; JSON text can carry integers up to `u64::MAX`, which do not match. -/
def RequestId.inRange : RequestId → Bool
  | .Number n => decide (-9223372036854775808 ≤ n) && decide (n < 9223372036854775808)
  | _ => true

def RequestId.encode : RequestId → Json
  | .String s => .str s
  | .Number n => .num n
  | .Null => .null

/-- Untagged resolution: try string, then i64 integer, then null; any other
JSON shape is a decode error. -/
def RequestId.decode : Json → Dec RequestId
  | .str s => .ok (.String s)
  | .num n =>
    if -9223372036854775808 ≤ n ∧ n < 9223372036854775808 then .ok (.Number n)
    else .error "data did not match any variant of untagged enum RequestId"
  | .null => .ok .Null
  | _ => .error "data did not match any variant of untagged enum RequestId"

/-! ## Error codes (src/errors.rs) -/

inductive ErrorCode where
  | ParseError
  | InvalidRequest
  | MethodNotFound
  | InvalidParams
  | InternalError
deriving DecidableEq, Repr

/-- The Rust enum discriminant (`ParseError = -32700`, ...). The serde derive
does not consult it; it is only the in-memory integer value of the variant. -/
def ErrorCode.code : ErrorCode → Int
  | .ParseError => -32700
  | .InvalidRequest => -32600
  | .MethodNotFound => -32601
  | .InvalidParams => -32602
  | .InternalError => -32603

/-- The serde rename of each unit variant (`#[serde(rename = "-32700")]` and
so on). serde serializes a unit variant of a plain enum as its (renamed)
variant NAME, that is, as a JSON string. -/
def ErrorCode.wireName : ErrorCode → String
  | .ParseError => "-32700"
  | .InvalidRequest => "-32600"
  | .MethodNotFound => "-32601"
  | .InvalidParams => "-32602"
  | .InternalError => "-32603"

def ErrorCode.encode (c : ErrorCode) : Json := .str c.wireName

/-- serde_json deserializes a plain enum from a JSON string (unit variant) or
a single-entry map (payload variants); any other JSON shape, in particular a
number, is an invalid-type error. -/
def ErrorCode.decode : Json → Dec ErrorCode
  | .str s =>
    if s = "-32700" then .ok .ParseError
    else if s = "-32600" then .ok .InvalidRequest
    else if s = "-32601" then .ok .MethodNotFound
    else if s = "-32602" then .ok .InvalidParams
    else if s = "-32603" then .ok .InternalError
    else .error "unknown variant"
  | _ => .error "invalid type: expected variant identifier"

/-! ## Option-valued field helpers -/

/-- A field of Rust type `Option<Value>`: JSON null decodes to `None`; any
other value is read as a `serde_json::Value`, i.e. canonicalized. -/
def decodeOptValue : Json → Option Json
  | .null => none
  | v => some (canonicalize v)

/-- `#[serde(skip_serializing_if = "Option::is_none")]`: emit the entry only
when the value is present. -/
def optEntry (k : String) (o : Option Json) (rest : JObj) : JObj :=
  match o with
  | none => rest
  | some j => .cons k j rest

/-- Does the encoded form (an object) contain the given key? -/
def hasKey (k : String) : Json → Bool
  | .obj fs => JObj.keyMem k fs
  | _ => false

/-! ## McpError (src/errors.rs) -/

structure McpError where
  code : ErrorCode
  message : String
  data : Option Json
deriving DecidableEq, Repr

def McpError.encode (e : McpError) : Json :=
  .obj (.cons "code" (ErrorCode.encode e.code) (.cons "message" (.str e.message)
    (optEntry "data" e.data .nil)))

structure MEState where
  code : Option ErrorCode
  message : Option String
  data : Option (Option Json)
deriving Repr

def meGo (st : MEState) : JObj → Dec MEState
  | .nil => .ok st
  | .cons k v tl =>
    if k = "code" then
      match st.code with
      | some _ => .error "duplicate field code"
      | none =>
        match ErrorCode.decode v with
        | .error e => .error e
        | .ok c => meGo { st with code := some c } tl
    else if k = "message" then
      match st.message with
      | some _ => .error "duplicate field message"
      | none =>
        match v with
        | .str s => meGo { st with message := some s } tl
        | _ => .error "invalid type: expected a string"
    else if k = "data" then
      match st.data with
      | some _ => .error "duplicate field data"
      | none => meGo { st with data := some (decodeOptValue v) } tl
    else meGo st tl

def McpError.decode : Json → Dec McpError
  | .obj fs =>
    match meGo ⟨none, none, none⟩ fs with
    | .error e => .error e
    | .ok st =>
      match st.code, st.message with
      | none, _ => .error "missing field code"
      | some _, none => .error "missing field message"
      | some c, some m => .ok ⟨c, m, st.data.getD none⟩
  | _ => .error "invalid type: expected struct McpError"

/-! ## JsonRpcRequest (src/protocol.rs) -/

structure JsonRpcRequest where
  jsonrpc : String
  id : RequestId
  method : String
  params : Option Json
deriving DecidableEq, Repr

def JsonRpcRequest.new (id : RequestId) (method : String) : JsonRpcRequest :=
  ⟨JSONRPC_VERSION, id, method, none⟩

def JsonRpcRequest.with_params (id : RequestId) (method : String) (params : Json) :
    JsonRpcRequest :=
  ⟨JSONRPC_VERSION, id, method, some params⟩

def JsonRpcRequest.encode (r : JsonRpcRequest) : Json :=
  .obj (.cons "jsonrpc" (.str r.jsonrpc) (.cons "id" (RequestId.encode r.id)
    (.cons "method" (.str r.method) (optEntry "params" r.params .nil))))

structure RRState where
  jsonrpc : Option String
  id : Option RequestId
  method : Option String
  params : Option (Option Json)
deriving Repr

def rrGo (st : RRState) : JObj → Dec RRState
  | .nil => .ok st
  | .cons k v tl =>
    if k = "jsonrpc" then
      match st.jsonrpc with
      | some _ => .error "duplicate field jsonrpc"
      | none =>
        match v with
        | .str s => rrGo { st with jsonrpc := some s } tl
        | _ => .error "invalid type: expected a string"
    else if k = "id" then
      match st.id with
      | some _ => .error "duplicate field id"
      | none =>
        match RequestId.decode v with
        | .error e => .error e
        | .ok i => rrGo { st with id := some i } tl
    else if k = "method" then
      match st.method with
      | some _ => .error "duplicate field method"
      | none =>
        match v with
        | .str s => rrGo { st with method := some s } tl
        | _ => .error "invalid type: expected a string"
    else if k = "params" then
      match st.params with
      | some _ => .error "duplicate field params"
      | none => rrGo { st with params := some (decodeOptValue v) } tl
    else rrGo st tl

def JsonRpcRequest.decode : Json → Dec JsonRpcRequest
  | .obj fs =>
    match rrGo ⟨none, none, none, none⟩ fs with
    | .error e => .error e
    | .ok st =>
      match st.jsonrpc, st.id, st.method with
      | none, _, _ => .error "missing field jsonrpc"
      | some _, none, _ => .error "missing field id"
      | some _, some _, none => .error "missing field method"
      | some j, some i, some m => .ok ⟨j, i, m, st.params.getD none⟩
  | _ => .error "invalid type: expected struct JsonRpcRequest"

/-! ## JsonRpcResponse (src/protocol.rs) -/

structure JsonRpcResponse where
  jsonrpc : String
  id : RequestId
  result : Option Json
  error : Option McpError
deriving DecidableEq, Repr

def JsonRpcResponse.success (id : RequestId) (result : Json) : JsonRpcResponse :=
  ⟨JSONRPC_VERSION, id, some result, none⟩

/-- The `JsonRpcResponse::error` constructor. It is named `error'` here only
because the structure's `error` field projection already takes that name. -/
def JsonRpcResponse.error' (id : RequestId) (e : McpError) : JsonRpcResponse :=
  ⟨JSONRPC_VERSION, id, none, some e⟩

def JsonRpcResponse.encode (r : JsonRpcResponse) : Json :=
  .obj (.cons "jsonrpc" (.str r.jsonrpc) (.cons "id" (RequestId.encode r.id)
    (optEntry "result" r.result
      (match r.error with
       | none => .nil
       | some e => .cons "error" (McpError.encode e) .nil))))

/-- A field of Rust type `Option<McpError>`: JSON null decodes to `None`. -/
def decodeOptMcpError : Json → Dec (Option McpError)
  | .null => .ok none
  | v =>
    match McpError.decode v with
    | .error e => .error e
    | .ok m => .ok (some m)

structure RespState where
  jsonrpc : Option String
  id : Option RequestId
  result : Option (Option Json)
  error : Option (Option McpError)
deriving Repr

def respGo (st : RespState) : JObj → Dec RespState
  | .nil => .ok st
  | .cons k v tl =>
    if k = "jsonrpc" then
      match st.jsonrpc with
      | some _ => .error "duplicate field jsonrpc"
      | none =>
        match v with
        | .str s => respGo { st with jsonrpc := some s } tl
        | _ => .error "invalid type: expected a string"
    else if k = "id" then
      match st.id with
      | some _ => .error "duplicate field id"
      | none =>
        match RequestId.decode v with
        | .error e => .error e
        | .ok i => respGo { st with id := some i } tl
    else if k = "result" then
      match st.result with
      | some _ => .error "duplicate field result"
      | none => respGo { st with result := some (decodeOptValue v) } tl
    else if k = "error" then
      match st.error with
      | some _ => .error "duplicate field error"
      | none =>
        match decodeOptMcpError v with
        | .error e => .error e
        | .ok m => respGo { st with error := some m } tl
    else respGo st tl

def JsonRpcResponse.decode : Json → Dec JsonRpcResponse
  | .obj fs =>
    match respGo ⟨none, none, none, none⟩ fs with
    | .error e => .error e
    | .ok st =>
      match st.jsonrpc, st.id with
      | none, _ => .error "missing field jsonrpc"
      | some _, none => .error "missing field id"
      | some j, some i => .ok ⟨j, i, st.result.getD none, st.error.getD none⟩
  | _ => .error "invalid type: expected struct JsonRpcResponse"

/-! ## Capabilities (src/protocol.rs) -/

structure ToolsCapability where
  list_changed : Option Bool
deriving DecidableEq, Repr

structure ResourcesCapability where
  subscribe : Option Bool
  list_changed : Option Bool
deriving DecidableEq, Repr

structure PromptsCapability where
  list_changed : Option Bool
deriving DecidableEq, Repr

structure LoggingCapability where
deriving DecidableEq, Repr

structure RootsCapability where
  list_changed : Option Bool
deriving DecidableEq, Repr

structure SamplingCapability where
deriving DecidableEq, Repr

/-- `HashMap<String, Value>` is modelled as an association list (serde
serializes its entries; the iteration order of a Rust `HashMap` is
unspecified, which only matters for non-empty maps). -/
structure ServerCapabilities where
  tools : Option ToolsCapability
  resources : Option ResourcesCapability
  prompts : Option PromptsCapability
  logging : Option LoggingCapability
  experimental : Option (List (String × Json))
deriving DecidableEq, Repr

structure ClientCapabilities where
  roots : Option RootsCapability
  sampling : Option SamplingCapability
  experimental : Option (List (String × Json))
deriving DecidableEq, Repr

/-- `impl Default for ServerCapabilities` (src/protocol.rs): every field is
`None`. -/
def ServerCapabilities.default : ServerCapabilities :=
  { tools := none, resources := none, prompts := none, logging := none,
    experimental := none }

/-- `impl Default for ClientCapabilities` (src/protocol.rs): every field is
`None`. -/
def ClientCapabilities.default : ClientCapabilities :=
  { roots := none, sampling := none, experimental := none }

def optBoolEntry (k : String) (o : Option Bool) (rest : JObj) : JObj :=
  match o with
  | none => rest
  | some b => .cons k (.bool b) rest

def ToolsCapability.encode (c : ToolsCapability) : Json :=
  .obj (optBoolEntry "listChanged" c.list_changed .nil)

def ResourcesCapability.encode (c : ResourcesCapability) : Json :=
  .obj (optBoolEntry "subscribe" c.subscribe (optBoolEntry "listChanged" c.list_changed .nil))

def PromptsCapability.encode (c : PromptsCapability) : Json :=
  .obj (optBoolEntry "listChanged" c.list_changed .nil)

def LoggingCapability.encode (_ : LoggingCapability) : Json := .obj .nil

def RootsCapability.encode (c : RootsCapability) : Json :=
  .obj (optBoolEntry "listChanged" c.list_changed .nil)

def SamplingCapability.encode (_ : SamplingCapability) : Json := .obj .nil

def pairsToJObj : List (String × Json) → JObj
  | [] => .nil
  | (k, v) :: tl => .cons k v (pairsToJObj tl)

def ServerCapabilities.encode (c : ServerCapabilities) : Json :=
  .obj (optEntry "tools" (c.tools.map ToolsCapability.encode)
    (optEntry "resources" (c.resources.map ResourcesCapability.encode)
      (optEntry "prompts" (c.prompts.map PromptsCapability.encode)
        (optEntry "logging" (c.logging.map LoggingCapability.encode)
          (optEntry "experimental" (c.experimental.map (fun m => .obj (pairsToJObj m))) .nil)))))

def ClientCapabilities.encode (c : ClientCapabilities) : Json :=
  .obj (optEntry "roots" (c.roots.map RootsCapability.encode)
    (optEntry "sampling" (c.sampling.map SamplingCapability.encode)
      (optEntry "experimental" (c.experimental.map (fun m => .obj (pairsToJObj m))) .nil)))

/-! ## ListToolsRequest (src/tools.rs) -/

structure ListToolsRequest where
  cursor : Option String
deriving DecidableEq, Repr

def ListToolsRequest.encode (r : ListToolsRequest) : Json :=
  .obj (match r.cursor with
    | none => .nil
    | some c => .cons "cursor" (.str c) .nil)

/-! ## ToolInputSchema (src/tools.rs) -/

/-- `ToolInputSchema`: the named fields `type` (renamed from `type_`),
`properties`, `required`, plus `#[serde(flatten)] additional: Option<Value>`
whose entries are merged at the same nesting level on encode and which
collects every unrecognized key on decode. -/
structure ToolInputSchema where
  type_ : String
  properties : Option Json
  required : Option (List String)
  additional : Option Json
deriving DecidableEq, Repr

def strsToJArr : List String → JArr
  | [] => .nil
  | s :: tl => .cons (.str s) (strsToJArr tl)

/-- Serialization with `flatten`: named fields in declaration order, then the
entries of the flattened map. Flattening a present non-object value is a
serialization error (serde can only flatten maps and structs), hence the
`Option` result. -/
def ToolInputSchema.encode (v : ToolInputSchema) : Option Json :=
  let reqd : JObj :=
    match v.required with
    | none => .nil
    | some l => .cons "required" (.arr (strsToJArr l)) .nil
  let named : JObj :=
    .cons "type" (.str v.type_)
      (match v.properties with
       | none => reqd
       | some p => .cons "properties" p reqd)
  match v.additional with
  | none => some (.obj named)
  | some (.obj fs) => some (.obj (named.append fs))
  | some _ => none

/-- A field of Rust type `Option<Vec<String>>`: null decodes to `None`, an
array of strings to `Some`, anything else is an error. -/
def decodeStringArr : JArr → Dec (List String)
  | .nil => .ok []
  | .cons (.str s) tl =>
    match decodeStringArr tl with
    | .error e => .error e
    | .ok l => .ok (s :: l)
  | .cons _ _ => .error "invalid type: expected a string"

def decodeOptStringList : Json → Dec (Option (List String))
  | .null => .ok none
  | .arr xs =>
    match decodeStringArr xs with
    | .error e => .error e
    | .ok l => .ok (some l)
  | _ => .error "invalid type: expected a sequence"

structure TISState where
  type_ : Option String
  properties : Option (Option Json)
  required : Option (Option (List String))
  residual : JObj
deriving Repr

/-- The deserialization loop of the derived `ToolInputSchema` visitor: named
fields are matched by key (duplicates are an error), every other entry is
collected, in order, for the flattened field. -/
def tisGo (st : TISState) : JObj → Dec TISState
  | .nil => .ok st
  | .cons k v tl =>
    if k = "type" then
      match st.type_ with
      | some _ => .error "duplicate field type"
      | none =>
        match v with
        | .str s => tisGo { st with type_ := some s } tl
        | _ => .error "invalid type: expected a string"
    else if k = "properties" then
      match st.properties with
      | some _ => .error "duplicate field properties"
      | none => tisGo { st with properties := some (decodeOptValue v) } tl
    else if k = "required" then
      match st.required with
      | some _ => .error "duplicate field required"
      | none =>
        match decodeOptStringList v with
        | .error e => .error e
        | .ok r => tisGo { st with required := some r } tl
    else tisGo { st with residual := st.residual.append (.cons k v .nil) } tl

/-- Deserialization of `ToolInputSchema`. The flattened `Option<Value>` field
is always populated (serde deserializes a flattened `Option` through
`visit_some`), with the collected residual entries read as a
`serde_json::Value` map: sorted, last-wins, values canonicalized. -/
def ToolInputSchema.decode : Json → Dec ToolInputSchema
  | .obj fs =>
    match tisGo ⟨none, none, none, .nil⟩ fs with
    | .error e => .error e
    | .ok st =>
      match st.type_ with
      | none => .error "missing field type"
      | some t =>
        .ok { type_ := t, properties := st.properties.getD none,
              required := st.required.getD none,
              additional := some (canonicalize (.obj st.residual)) }
  | _ => .error "invalid type: expected struct ToolInputSchema"

/-! ## Content unions (src/tools.rs, src/sampling.rs) -/

inductive ToolResultContent where
  | Text (text : String)
  | Image (data : String) (mime_type : String)
  | Resource (resource : String)
deriving DecidableEq, Repr

inductive MessageContent where
  | Text (text : String)
  | Image (data : String) (mime_type : String)
deriving DecidableEq, Repr

/-- Scan an internally-tagged object for its `"type"` tag (serde's tagged
content visitor): the tag value must be a string, a duplicate tag is an
error, and the remaining entries are kept, in order, as the variant body. -/
def tagSplit (tag : Option String) (rest : JObj) : JObj → Dec (Option String × JObj)
  | .nil => .ok (tag, rest)
  | .cons k v tl =>
    if k = "type" then
      match tag with
      | some _ => .error "duplicate field type"
      | none =>
        match v with
        | .str s => tagSplit (some s) rest tl
        | _ => .error "invalid type: expected a string"
    else tagSplit tag (rest.append (.cons k v .nil)) tl

/-- Scan a struct-variant body for one required string field; unknown fields
are ignored, a duplicate is an error, a non-string value is an error. -/
def strField (name : String) (acc : Option String) : JObj → Dec (Option String)
  | .nil => .ok acc
  | .cons k v tl =>
    if k = name then
      match acc with
      | some _ => .error "duplicate field"
      | none =>
        match v with
        | .str s => strField name (some s) tl
        | _ => .error "invalid type: expected a string"
    else strField name acc tl

def ToolResultContent.decode : Json → Dec ToolResultContent
  | .obj fs =>
    match tagSplit none .nil fs with
    | .error e => .error e
    | .ok (none, _) => .error "missing field type"
    | .ok (some tag, rest) =>
      if tag = "text" then
        match strField "text" none rest with
        | .error e => .error e
        | .ok none => .error "missing field text"
        | .ok (some t) => .ok (.Text t)
      else if tag = "image" then
        match strField "data" none rest with
        | .error e => .error e
        | .ok none => .error "missing field data"
        | .ok (some d) =>
          match strField "mimeType" none rest with
          | .error e => .error e
          | .ok none => .error "missing field mimeType"
          | .ok (some m) => .ok (.Image d m)
      else if tag = "resource" then
        match strField "resource" none rest with
        | .error e => .error e
        | .ok none => .error "missing field resource"
        | .ok (some r) => .ok (.Resource r)
      else .error "unknown variant"
  | _ => .error "invalid type: expected internally tagged enum ToolResultContent"

/-- Sampling-message content is a closed union of text and image only: the
`resource` tag of `ToolResultContent` is NOT a variant here. -/
def MessageContent.decode : Json → Dec MessageContent
  | .obj fs =>
    match tagSplit none .nil fs with
    | .error e => .error e
    | .ok (none, _) => .error "missing field type"
    | .ok (some tag, rest) =>
      if tag = "text" then
        match strField "text" none rest with
        | .error e => .error e
        | .ok none => .error "missing field text"
        | .ok (some t) => .ok (.Text t)
      else if tag = "image" then
        match strField "data" none rest with
        | .error e => .error e
        | .ok none => .error "missing field data"
        | .ok (some d) =>
          match strField "mimeType" none rest with
          | .error e => .error e
          | .ok none => .error "missing field mimeType"
          | .ok (some m) => .ok (.Image d m)
      else .error "unknown variant"
  | _ => .error "invalid type: expected internally tagged enum MessageContent"

/-! ## Round-trip lemmas -/

theorem decodeOptValue_good : ∀ {v p : Json}, decodeOptValue v = some p →
    Canon p = true ∧ p ≠ .null := by
  intro v p h
  cases v with
  | null => exact absurd h (by simp [decodeOptValue])
  | bool b =>
    simp only [decodeOptValue, Option.some.injEq] at h
    exact h ▸ ⟨canon_canonicalize _, canonicalize_ne_null (by simp)⟩
  | num n =>
    simp only [decodeOptValue, Option.some.injEq] at h
    exact h ▸ ⟨canon_canonicalize _, canonicalize_ne_null (by simp)⟩
  | numF q =>
    simp only [decodeOptValue, Option.some.injEq] at h
    exact h ▸ ⟨canon_canonicalize _, canonicalize_ne_null (by simp)⟩
  | str s =>
    simp only [decodeOptValue, Option.some.injEq] at h
    exact h ▸ ⟨canon_canonicalize _, canonicalize_ne_null (by simp)⟩
  | arr xs =>
    simp only [decodeOptValue, Option.some.injEq] at h
    exact h ▸ ⟨canon_canonicalize _, canonicalize_ne_null (by simp)⟩
  | obj fs =>
    simp only [decodeOptValue, Option.some.injEq] at h
    exact h ▸ ⟨canon_canonicalize _, canonicalize_ne_null (by simp)⟩

theorem decodeOptValue_canon {p : Json} (hc : Canon p = true) (hn : p ≠ .null) :
    decodeOptValue p = some p := by
  cases p with
  | null => exact absurd rfl hn
  | bool b => simp [decodeOptValue, canonicalize_eq_self _ hc]
  | num n => simp [decodeOptValue, canonicalize_eq_self _ hc]
  | numF q => simp [decodeOptValue, canonicalize_eq_self _ hc]
  | str s => simp [decodeOptValue, canonicalize_eq_self _ hc]
  | arr xs => simp [decodeOptValue, canonicalize_eq_self _ hc]
  | obj fs => simp [decodeOptValue, canonicalize_eq_self _ hc]

theorem RequestId.encode_decode_id : ∀ {i : RequestId}, i.inRange = true →
    RequestId.decode i.encode = .ok i := by
  intro i h
  cases i with
  | String s => rfl
  | Number n =>
    simp only [RequestId.inRange, Bool.and_eq_true, decide_eq_true_eq] at h
    simp [RequestId.encode, RequestId.decode, h.1, h.2]
  | Null => rfl

theorem RequestId.decode_inRange : ∀ {j : Json} {i : RequestId},
    RequestId.decode j = .ok i → i.inRange = true := by
  intro j i h
  cases j with
  | str s =>
    simp only [RequestId.decode, Except.ok.injEq] at h
    simp [← h, RequestId.inRange]
  | num n =>
    simp only [RequestId.decode] at h
    by_cases hb : -9223372036854775808 ≤ n ∧ n < 9223372036854775808
    · rw [if_pos hb] at h
      simp only [Except.ok.injEq] at h
      simp [← h, RequestId.inRange, hb.1, hb.2]
    · rw [if_neg hb] at h
      exact absurd h (by simp)
  | null =>
    simp only [RequestId.decode, Except.ok.injEq] at h
    simp [← h, RequestId.inRange]
  | bool b => exact absurd h (by simp [RequestId.decode])
  | numF q => exact absurd h (by simp [RequestId.decode])
  | arr xs => exact absurd h (by simp [RequestId.decode])
  | obj fs => exact absurd h (by simp [RequestId.decode])

/-- The state invariant maintained by the `JsonRpcRequest` deserialization
loop: any captured `params` value is a canonical non-null `Value`, and any
captured identifier fits the i64 range. -/
def RRInv (st : RRState) : Prop :=
  (∀ p, st.params = some (some p) → Canon p = true ∧ p ≠ .null) ∧
  (∀ i, st.id = some i → i.inRange = true)

theorem rrGo_inv : ∀ (fs : JObj) (st st' : RRState),
    RRInv st → rrGo st fs = .ok st' → RRInv st'
  | .nil, st, st', hinv, h => by
    simp only [rrGo, Except.ok.injEq] at h
    exact h ▸ hinv
  | .cons k v tl, st, st', hinv, h => by
    simp only [rrGo] at h
    split_ifs at h with h1 h2 h3 h4
    · cases hj : st.jsonrpc with
      | some _ => rw [hj] at h; exact absurd h (by simp)
      | none =>
        rw [hj] at h
        cases v with
        | str s =>
          refine rrGo_inv tl _ st' ⟨?_, ?_⟩ h
          · intro p hp; exact hinv.1 p hp
          · intro i hi; exact hinv.2 i hi
        | null => exact absurd h (by simp)
        | bool b => exact absurd h (by simp)
        | num n => exact absurd h (by simp)
        | numF q => exact absurd h (by simp)
        | arr xs => exact absurd h (by simp)
        | obj fs2 => exact absurd h (by simp)
    · cases hj : st.id with
      | some _ => rw [hj] at h; exact absurd h (by simp)
      | none =>
        rw [hj] at h
        cases hd : RequestId.decode v with
        | error e => rw [hd] at h; exact absurd h (by simp)
        | ok i =>
          rw [hd] at h
          refine rrGo_inv tl _ st' ⟨?_, ?_⟩ h
          · intro p hp; exact hinv.1 p hp
          · intro i' hi'
            simp only [Option.some.injEq] at hi'
            exact hi' ▸ RequestId.decode_inRange hd
    · cases hj : st.method with
      | some _ => rw [hj] at h; exact absurd h (by simp)
      | none =>
        rw [hj] at h
        cases v with
        | str s =>
          refine rrGo_inv tl _ st' ⟨?_, ?_⟩ h
          · intro p hp; exact hinv.1 p hp
          · intro i hi; exact hinv.2 i hi
        | null => exact absurd h (by simp)
        | bool b => exact absurd h (by simp)
        | num n => exact absurd h (by simp)
        | numF q => exact absurd h (by simp)
        | arr xs => exact absurd h (by simp)
        | obj fs2 => exact absurd h (by simp)
    · cases hj : st.params with
      | some _ => rw [hj] at h; exact absurd h (by simp)
      | none =>
        rw [hj] at h
        refine rrGo_inv tl _ st' ⟨?_, ?_⟩ h
        · intro p hp
          simp only [Option.some.injEq] at hp
          exact decodeOptValue_good hp
        · intro i hi; exact hinv.2 i hi
    · exact rrGo_inv tl st st' hinv h

theorem JsonRpcRequest.decode_inv : ∀ {j : Json} {v : JsonRpcRequest},
    JsonRpcRequest.decode j = .ok v →
    (∀ p, v.params = some p → Canon p = true ∧ p ≠ .null) ∧ v.id.inRange = true := by
  intro j v h
  cases j with
  | obj fs =>
    simp only [JsonRpcRequest.decode] at h
    cases hg : rrGo ⟨none, none, none, none⟩ fs with
    | error e => rw [hg] at h; exact absurd h (by simp)
    | ok st =>
      rw [hg] at h
      dsimp only at h
      have hinv : RRInv st := rrGo_inv fs _ st ⟨by simp, by simp⟩ hg
      cases hj : st.jsonrpc with
      | none => rw [hj] at h; exact absurd h (by simp)
      | some jr =>
        rw [hj] at h
        cases hi : st.id with
        | none => rw [hi] at h; exact absurd h (by simp)
        | some i =>
          rw [hi] at h
          cases hm : st.method with
          | none => rw [hm] at h; exact absurd h (by simp)
          | some m =>
            rw [hm] at h
            simp only [Except.ok.injEq] at h
            subst h
            refine ⟨?_, hinv.2 i hi⟩
            intro p hp
            cases hps : st.params with
            | none => rw [hps] at hp; exact absurd hp (by simp)
            | some o =>
              rw [hps] at hp
              simp only [Option.getD_some] at hp
              exact hinv.1 p (by rw [hps, hp])
  | null => exact absurd h (by simp [JsonRpcRequest.decode])
  | bool b => exact absurd h (by simp [JsonRpcRequest.decode])
  | num n => exact absurd h (by simp [JsonRpcRequest.decode])
  | numF q => exact absurd h (by simp [JsonRpcRequest.decode])
  | str s => exact absurd h (by simp [JsonRpcRequest.decode])
  | arr xs => exact absurd h (by simp [JsonRpcRequest.decode])

theorem JsonRpcRequest.encode_decode_req {v : JsonRpcRequest}
    (hp : ∀ p, v.params = some p → Canon p = true ∧ p ≠ .null)
    (hi : v.id.inRange = true) :
    JsonRpcRequest.decode v.encode = .ok v := by
  cases v with
  | mk jr i m ps =>
    cases ps with
    | none =>
      simp [JsonRpcRequest.encode, optEntry, JsonRpcRequest.decode, rrGo,
        RequestId.encode_decode_id hi]
    | some p =>
      have hpc := hp p rfl
      simp [JsonRpcRequest.encode, optEntry, JsonRpcRequest.decode, rrGo,
        RequestId.encode_decode_id hi, decodeOptValue_canon hpc.1 hpc.2]

/-- The keys consumed by the named fields of `ToolInputSchema`. -/
def tisReserved (k : String) : Bool := k == "type" || k == "properties" || k == "required"

/-- No entry of the object uses a key consumed by a named field. -/
def noReservedT : JObj → Bool
  | .nil => true
  | .cons k _ tl => !tisReserved k && noReservedT tl

theorem noReservedT_append : ∀ (a b : JObj),
    noReservedT (a.append b) = (noReservedT a && noReservedT b)
  | .nil, b => by simp [JObj.append, noReservedT]
  | .cons k v tl, b => by
    simp [JObj.append, noReservedT, noReservedT_append tl b, Bool.and_assoc]

theorem keyMem_noReservedT : ∀ (fs : JObj) {k : String}, noReservedT fs = true →
    JObj.keyMem k fs = true → tisReserved k = false
  | .nil, k, _, hm => by simp [JObj.keyMem] at hm
  | .cons k1 v1 tl, k, hn, hm => by
    simp only [noReservedT, Bool.and_eq_true, Bool.not_eq_true'] at hn
    simp only [JObj.keyMem, Bool.or_eq_true, beq_iff_eq] at hm
    rcases hm with rfl | hm
    · exact hn.1
    · exact keyMem_noReservedT tl hn.2 hm

theorem noReservedT_of_keyMem : ∀ (fs : JObj),
    (∀ k, JObj.keyMem k fs = true → tisReserved k = false) → noReservedT fs = true
  | .nil, _ => rfl
  | .cons k1 v1 tl, h => by
    simp only [noReservedT, Bool.and_eq_true, Bool.not_eq_true']
    refine ⟨h k1 (by simp [JObj.keyMem]), noReservedT_of_keyMem tl ?_⟩
    intro k hk
    exact h k (by simp [JObj.keyMem, hk])

/-- The state invariant maintained by the `ToolInputSchema` deserialization
loop: any captured `properties` value is a canonical non-null `Value`, and
the collected residual entries use no reserved key. -/
def TISInv (st : TISState) : Prop :=
  (∀ p, st.properties = some (some p) → Canon p = true ∧ p ≠ .null) ∧
  noReservedT st.residual = true

theorem tisGo_inv : ∀ (fs : JObj) (st st' : TISState),
    TISInv st → tisGo st fs = .ok st' → TISInv st'
  | .nil, st, st', hinv, h => by
    simp only [tisGo, Except.ok.injEq] at h
    exact h ▸ hinv
  | .cons k v tl, st, st', hinv, h => by
    simp only [tisGo] at h
    split_ifs at h with h1 h2 h3
    · cases hj : st.type_ with
      | some _ => rw [hj] at h; exact absurd h (by simp)
      | none =>
        rw [hj] at h
        cases v with
        | str s =>
          refine tisGo_inv tl _ st' ⟨?_, ?_⟩ h
          · intro p hp; exact hinv.1 p hp
          · exact hinv.2
        | null => exact absurd h (by simp)
        | bool b => exact absurd h (by simp)
        | num n => exact absurd h (by simp)
        | numF q => exact absurd h (by simp)
        | arr xs => exact absurd h (by simp)
        | obj fs2 => exact absurd h (by simp)
    · cases hj : st.properties with
      | some _ => rw [hj] at h; exact absurd h (by simp)
      | none =>
        rw [hj] at h
        refine tisGo_inv tl _ st' ⟨?_, ?_⟩ h
        · intro p hp
          simp only [Option.some.injEq] at hp
          exact decodeOptValue_good hp
        · exact hinv.2
    · cases hj : st.required with
      | some _ => rw [hj] at h; exact absurd h (by simp)
      | none =>
        rw [hj] at h
        cases hd : decodeOptStringList v with
        | error e => rw [hd] at h; exact absurd h (by simp)
        | ok r =>
          rw [hd] at h
          refine tisGo_inv tl _ st' ⟨?_, ?_⟩ h
          · intro p hp; exact hinv.1 p hp
          · exact hinv.2
    · refine tisGo_inv tl _ st' ⟨?_, ?_⟩ h
      · intro p hp; exact hinv.1 p hp
      · rw [noReservedT_append, hinv.2]
        simp [noReservedT, tisReserved, h1, h2, h3]

theorem tisGo_residual : ∀ (fs : JObj) (st : TISState), noReservedT fs = true →
    tisGo st fs = .ok { st with residual := st.residual.append fs }
  | .nil, st, _ => by simp [tisGo, JObj.append_nil]
  | .cons k v tl, st, h => by
    simp only [noReservedT, Bool.and_eq_true, Bool.not_eq_true'] at h
    have hres : tisReserved k = false := h.1
    simp only [tisReserved, Bool.or_eq_false_iff, beq_eq_false_iff_ne, ne_eq] at hres
    simp only [tisGo]
    rw [if_neg hres.1.1, if_neg hres.1.2, if_neg hres.2]
    rw [tisGo_residual tl _ h.2]
    have : (st.residual.append (.cons k v .nil)).append tl = st.residual.append (.cons k v tl) := by
      rw [JObj.append_assoc]; rfl
    simp [this]

theorem decodeStringArr_strsToJArr : ∀ (l : List String),
    decodeStringArr (strsToJArr l) = .ok l
  | [] => rfl
  | s :: tl => by simp [strsToJArr, decodeStringArr, decodeStringArr_strsToJArr tl]

theorem ToolInputSchema.decode_good : ∀ {j : Json} {v : ToolInputSchema},
    ToolInputSchema.decode j = .ok v →
    (∀ p, v.properties = some p → Canon p = true ∧ p ≠ .null) ∧
    (∃ afs, v.additional = some (.obj afs) ∧ canonF afs = true ∧ noReservedT afs = true) := by
  intro j v h
  cases j with
  | obj fs =>
    simp only [ToolInputSchema.decode] at h
    cases hg : tisGo ⟨none, none, none, .nil⟩ fs with
    | error e => rw [hg] at h; exact absurd h (by simp)
    | ok st =>
      rw [hg] at h
      dsimp only at h
      have hinv : TISInv st := tisGo_inv fs ⟨none, none, none, .nil⟩ st ⟨by simp, by rfl⟩ hg
      cases ht : st.type_ with
      | none => rw [ht] at h; exact absurd h (by simp)
      | some t =>
        rw [ht] at h
        simp only [Except.ok.injEq] at h
        subst h
        constructor
        · intro p hp
          cases hps : st.properties with
          | none => rw [hps] at hp; exact absurd hp (by simp)
          | some o =>
            rw [hps] at hp
            simp only [Option.getD_some] at hp
            exact hinv.1 p (by rw [hps, hp])
        · refine ⟨insFold .nil (canonPairs st.residual), ?_, ?_, ?_⟩
          · simp [canonicalize]
          · exact canonF_insFold (canonPairs st.residual) .nil
              (valsCanon_canonPairs st.residual) rfl
          · refine noReservedT_of_keyMem _ ?_
            intro k hk
            rcases keyMem_insFold (canonPairs st.residual) .nil hk with h1 | h1
            · simp [JObj.keyMem] at h1
            · rw [keyMem_canonPairs k st.residual] at h1
              exact keyMem_noReservedT st.residual hinv.2 h1
  | null => exact absurd h (by simp [ToolInputSchema.decode])
  | bool b => exact absurd h (by simp [ToolInputSchema.decode])
  | num n => exact absurd h (by simp [ToolInputSchema.decode])
  | numF q => exact absurd h (by simp [ToolInputSchema.decode])
  | str s => exact absurd h (by simp [ToolInputSchema.decode])
  | arr xs => exact absurd h (by simp [ToolInputSchema.decode])

theorem ToolInputSchema.encode_decode_tis {v : ToolInputSchema}
    (hp : ∀ p, v.properties = some p → Canon p = true ∧ p ≠ .null)
    (ha : ∃ afs, v.additional = some (.obj afs) ∧ canonF afs = true ∧ noReservedT afs = true) :
    ∃ j', v.encode = some j' ∧ ToolInputSchema.decode j' = .ok v := by
  obtain ⟨afs, hadd, hcanon, hnores⟩ := ha
  cases v with
  | mk t ps rq ad =>
    simp only at hadd
    subst hadd
    have hcanself : canonicalize (.obj afs) = .obj afs :=
      canonicalize_eq_self _ (by simpa [Canon] using hcanon)
    cases ps with
    | none =>
      cases rq with
      | none =>
        refine ⟨_, rfl, ?_⟩
        simp [ToolInputSchema.decode, tisGo, JObj.append, tisGo_residual, hnores, hcanself]
      | some l =>
        refine ⟨_, rfl, ?_⟩
        simp [ToolInputSchema.decode, tisGo, JObj.append, tisGo_residual, hnores, hcanself,
          decodeOptStringList, decodeStringArr_strsToJArr]
    | some p =>
      have hpc := hp p rfl
      cases rq with
      | none =>
        refine ⟨_, rfl, ?_⟩
        simp [ToolInputSchema.decode, tisGo, JObj.append, tisGo_residual, hnores, hcanself,
          decodeOptValue_canon hpc.1 hpc.2]
      | some l =>
        refine ⟨_, rfl, ?_⟩
        simp [ToolInputSchema.decode, tisGo, JObj.append, tisGo_residual, hnores, hcanself,
          decodeOptValue_canon hpc.1 hpc.2, decodeOptStringList, decodeStringArr_strsToJArr]

/-! ## Claim theorems -/

/-- Claim C1 (code bug): the five error codes do NOT serialize as JSON
integers.  The serde derive on `ErrorCode` renames each unit variant to the
decimal string of its code, so encoding produces the JSON STRING `"-32700"`
(and so on), never the JSON integer `-32700`; decoding the JSON integer
`-32700` fails with an invalid-type error, while the string form round-trips.
This contradicts the crate's own documentation ("MCP error codes as defined
in the specification", whose wire form is an integer) and the explicit Rust
discriminants `ParseError = -32700`, ... -/
theorem c1_error_code_wire :
    (ErrorCode.encode .ParseError = .str "-32700" ∧
     ErrorCode.encode .InvalidRequest = .str "-32600" ∧
     ErrorCode.encode .MethodNotFound = .str "-32601" ∧
     ErrorCode.encode .InvalidParams = .str "-32602" ∧
     ErrorCode.encode .InternalError = .str "-32603") ∧
    (∀ c : ErrorCode, ErrorCode.encode c ≠ .num c.code) ∧
    ErrorCode.decode (.num (-32700)) = .error "invalid type: expected variant identifier" ∧
    ErrorCode.decode (.str "-32700") = .ok .ParseError := by
  refine ⟨⟨rfl, rfl, rfl, rfl, rfl⟩, ?_, rfl, rfl⟩
  intro c
  cases c <;> simp [ErrorCode.encode, ErrorCode.code, ErrorCode.wireName]

/-- Claim C2 (amended): for `ToolInputSchema` and `JsonRpcRequest`, the
decode-first round trip holds unconditionally (decoding, re-encoding and
decoding again returns the same decoded value), and consequently the
encode-first round trip holds for every value reachable by decoding.  It
does NOT hold for every hand-constructible value: storing an explicit JSON
null in an optional `Value` field, or flattened extra keywords colliding
with a named field, breaks the encode-first law (see the counterexample). -/
theorem c2_roundtrip_amended :
    (∀ (j : Json) (v : ToolInputSchema), ToolInputSchema.decode j = .ok v →
      ∃ j', ToolInputSchema.encode v = some j' ∧ ToolInputSchema.decode j' = .ok v) ∧
    (∀ (j : Json) (v : JsonRpcRequest), JsonRpcRequest.decode j = .ok v →
      JsonRpcRequest.decode (JsonRpcRequest.encode v) = .ok v) := by
  constructor
  · intro j v h
    have hg := ToolInputSchema.decode_good h
    exact ToolInputSchema.encode_decode_tis hg.1 hg.2
  · intro j v h
    have hg := JsonRpcRequest.decode_inv h
    exact JsonRpcRequest.encode_decode_req hg.1 hg.2

theorem c2_roundtrip_amended_witness :
    (∃ j', ToolInputSchema.encode
        ⟨"object", none, none, some (.obj (.cons "x" (.num 1) .nil))⟩ = some j' ∧
      ToolInputSchema.decode j' =
        .ok ⟨"object", none, none, some (.obj (.cons "x" (.num 1) .nil))⟩) ∧
    JsonRpcRequest.decode (JsonRpcRequest.encode ⟨"2.0", .Number 1, "m", none⟩) =
      .ok ⟨"2.0", .Number 1, "m", none⟩ :=
  ⟨c2_roundtrip_amended.1
      (.obj (.cons "type" (.str "object") (.cons "x" (.num 1) .nil))) _ rfl,
   c2_roundtrip_amended.2
      (.obj (.cons "jsonrpc" (.str "2.0") (.cons "id" (.num 1)
        (.cons "method" (.str "m") .nil)))) _ rfl⟩

/-- Claim C2 counterexample: the claim as stated quantifies over every value
of the structure.  The request whose `params` field holds an explicit JSON
null encodes with a `"params": null` entry, decodes back with `params`
absent, and re-encodes WITHOUT any `"params"` key, so the third encode is
not equal to the first even up to key order. -/
theorem c2_counterexample :
    JsonRpcRequest.encode ⟨"2.0", .Number 1, "m", some .null⟩ =
      .obj (.cons "jsonrpc" (.str "2.0") (.cons "id" (.num 1)
        (.cons "method" (.str "m") (.cons "params" .null .nil)))) ∧
    JsonRpcRequest.decode (JsonRpcRequest.encode ⟨"2.0", .Number 1, "m", some .null⟩) =
      .ok ⟨"2.0", .Number 1, "m", none⟩ ∧
    hasKey "params" (JsonRpcRequest.encode ⟨"2.0", .Number 1, "m", some .null⟩) = true ∧
    hasKey "params" (JsonRpcRequest.encode ⟨"2.0", .Number 1, "m", none⟩) = false :=
  ⟨rfl, rfl, rfl, rfl⟩

/-- Claim C3: the success constructor populates `result` and leaves `error`
absent, the error constructor populates `error` and leaves `result` absent,
and both fix the `jsonrpc` marker to the literal "2.0". -/
theorem c3_response_constructors :
    ∀ (id : RequestId) (r : Json) (e : McpError),
      (JsonRpcResponse.success id r).result = some r ∧
      (JsonRpcResponse.success id r).error = none ∧
      (JsonRpcResponse.success id r).jsonrpc = "2.0" ∧
      (JsonRpcResponse.success id r).id = id ∧
      (JsonRpcResponse.error' id e).error = some e ∧
      (JsonRpcResponse.error' id e).result = none ∧
      (JsonRpcResponse.error' id e).jsonrpc = "2.0" ∧
      (JsonRpcResponse.error' id e).id = id := by
  intro id r e
  exact ⟨rfl, rfl, rfl, rfl, rfl, rfl, rfl, rfl⟩

/-- Claim C4: identifier resolution by JSON shape.  A JSON string decodes to
the string variant, a JSON integer in i64 range to the integer variant,
JSON null to the null variant; a non-integral number or an array fails with
the untagged-enum decode error. -/
theorem c4_request_id_resolution :
    (∀ s : String, RequestId.decode (.str s) = .ok (.String s)) ∧
    (∀ n : Int, -9223372036854775808 ≤ n → n < 9223372036854775808 →
      RequestId.decode (.num n) = .ok (.Number n)) ∧
    RequestId.decode .null = .ok .Null ∧
    (∀ q : Rat, RequestId.decode (.numF q) =
      .error "data did not match any variant of untagged enum RequestId") ∧
    (∀ xs : JArr, RequestId.decode (.arr xs) =
      .error "data did not match any variant of untagged enum RequestId") := by
  refine ⟨fun s => rfl, ?_, rfl, fun q => rfl, fun xs => rfl⟩
  intro n h1 h2
  simp [RequestId.decode, h1, h2]

theorem c4_request_id_resolution_witness :
    RequestId.decode (.num 42) = .ok (.Number 42) :=
  c4_request_id_resolution.2.1 42 (by decide) (by decide)

/-- Claim C5: absent optional fields are omitted entirely.  A list-tools
request with no cursor encodes to the empty object, a request with no
params has no "params" key, and the concrete tools/list envelope is exactly
the three mandatory keys. -/
theorem c5_absent_fields_omitted :
    (∀ r : ListToolsRequest, r.cursor = none → ListToolsRequest.encode r = .obj .nil) ∧
    (∀ v : JsonRpcRequest, v.params = none →
      hasKey "params" (JsonRpcRequest.encode v) = false) ∧
    JsonRpcRequest.encode (JsonRpcRequest.new (.Number 1) "tools/list") =
      .obj (.cons "jsonrpc" (.str "2.0") (.cons "id" (.num 1)
        (.cons "method" (.str "tools/list") .nil))) := by
  refine ⟨?_, ?_, rfl⟩
  · intro r h
    cases r
    simp only at h
    subst h
    rfl
  · intro v h
    cases v
    simp only at h
    subst h
    simp [JsonRpcRequest.encode, optEntry, hasKey, JObj.keyMem]

theorem c5_absent_fields_omitted_witness :
    ListToolsRequest.encode ⟨none⟩ = .obj .nil ∧
    hasKey "params" (JsonRpcRequest.encode ⟨"2.0", .Number 7, "x", none⟩) = false :=
  ⟨c5_absent_fields_omitted.1 ⟨none⟩ rfl,
   c5_absent_fields_omitted.2.1 ⟨"2.0", .Number 7, "x", none⟩ rfl⟩

/-- Claim C6: tool-result content is discriminated on the "type" tag.  The
text and image objects decode to their variants with all fields populated;
a missing tag, an unrecognized tag, and a missing required field each fail
with a decode error; and every tag outside the closed set fails. -/
theorem c6_tool_result_discrimination :
    ToolResultContent.decode
      (.obj (.cons "type" (.str "text") (.cons "text" (.str "hi") .nil))) =
      .ok (.Text "hi") ∧
    ToolResultContent.decode
      (.obj (.cons "type" (.str "image") (.cons "data" (.str "QQ==")
        (.cons "mimeType" (.str "image/png") .nil)))) =
      .ok (.Image "QQ==" "image/png") ∧
    ToolResultContent.decode (.obj (.cons "text" (.str "hi") .nil)) =
      .error "missing field type" ∧
    ToolResultContent.decode (.obj (.cons "type" (.str "bogus") .nil)) =
      .error "unknown variant" ∧
    ToolResultContent.decode (.obj (.cons "type" (.str "text") .nil)) =
      .error "missing field text" ∧
    (∀ (s : String) (fs rest : JObj), tagSplit none .nil fs = .ok (some s, rest) →
      s ≠ "text" → s ≠ "image" → s ≠ "resource" →
      ToolResultContent.decode (.obj fs) = .error "unknown variant") := by
  refine ⟨rfl, rfl, rfl, rfl, rfl, ?_⟩
  intro s fs rest h h1 h2 h3
  simp only [ToolResultContent.decode]
  rw [h]
  simp [h1, h2, h3]

theorem c6_tool_result_discrimination_witness :
    ToolResultContent.decode (.obj (.cons "type" (.str "audio")
      (.cons "data" (.str "QQ==") .nil))) = .error "unknown variant" :=
  c6_tool_result_discrimination.2.2.2.2.2 "audio"
    (.cons "type" (.str "audio") (.cons "data" (.str "QQ==") .nil)) _
    rfl (by decide) (by decide) (by decide)

/-- Claim C7 counterexample: no validation happens before encoding.  A
response holding BOTH `result` and `error` (buildable by direct field
assignment, since the fields are public) encodes successfully, and the
encoded object carries both the "result" and the "error" key. -/
theorem c7_counterexample :
    JsonRpcResponse.encode
      ⟨"2.0", .Number 1, some (.obj .nil), some ⟨.InternalError, "boom", none⟩⟩ =
      .obj (.cons "jsonrpc" (.str "2.0") (.cons "id" (.num 1)
        (.cons "result" (.obj .nil) (.cons "error"
          (.obj (.cons "code" (.str "-32603") (.cons "message" (.str "boom") .nil)))
          .nil)))) ∧
    hasKey "result" (JsonRpcResponse.encode
      ⟨"2.0", .Number 1, some (.obj .nil), some ⟨.InternalError, "boom", none⟩⟩) = true ∧
    hasKey "error" (JsonRpcResponse.encode
      ⟨"2.0", .Number 1, some (.obj .nil), some ⟨.InternalError, "boom", none⟩⟩) = true :=
  ⟨rfl, rfl, rfl⟩

/-- Claim C7 (amended): serialization performs no exclusivity re-check; the
encoder is total and reproduces exactly the fields that are set, so a
both-set response encodes with both keys and a neither-set response with
neither key.  Exclusivity is guaranteed only by the two constructors. -/
theorem c7_no_encode_validation :
    ∀ v : JsonRpcResponse,
      hasKey "result" (JsonRpcResponse.encode v) = v.result.isSome ∧
      hasKey "error" (JsonRpcResponse.encode v) = v.error.isSome := by
  intro v
  cases v with
  | mk jr i r e =>
    cases r <;> cases e <;>
      simp [JsonRpcResponse.encode, optEntry, hasKey, JObj.keyMem]

/-- Claim C8 counterexample: the default server capabilities do NOT carry an
empty experimental map; the `experimental` field of the default is `None`
(absent), not `Some` of an empty map. -/
theorem c8_counterexample :
    ¬ (ServerCapabilities.default.experimental = some []) := by
  intro h
  simp [ServerCapabilities.default] at h

/-- Claim C8 (amended): both default constructors yield every sub-capability
absent AND the experimental field absent (not an empty map), and each
default encodes as the empty object, the baseline declaration supporting no
feature. -/
theorem c8_default_capabilities :
    ServerCapabilities.default.tools = none ∧
    ServerCapabilities.default.resources = none ∧
    ServerCapabilities.default.prompts = none ∧
    ServerCapabilities.default.logging = none ∧
    ServerCapabilities.default.experimental = none ∧
    ClientCapabilities.default.roots = none ∧
    ClientCapabilities.default.sampling = none ∧
    ClientCapabilities.default.experimental = none ∧
    ServerCapabilities.encode ServerCapabilities.default = .obj .nil ∧
    ClientCapabilities.encode ClientCapabilities.default = .obj .nil :=
  ⟨rfl, rfl, rfl, rfl, rfl, rfl, rfl, rfl, rfl, rfl⟩

/-- Claim C9: sampling-message content is a closed union of text and image.
The "resource" tag, a valid tool-result tag, fails here with an
unknown-variant error, as does every tag other than "text" and "image". -/
theorem c9_sampling_content_closed :
    MessageContent.decode (.obj (.cons "type" (.str "resource")
      (.cons "resource" (.str "file:///x") .nil))) = .error "unknown variant" ∧
    (∀ (s : String) (fs rest : JObj), tagSplit none .nil fs = .ok (some s, rest) →
      s ≠ "text" → s ≠ "image" →
      MessageContent.decode (.obj fs) = .error "unknown variant") := by
  refine ⟨rfl, ?_⟩
  intro s fs rest h h1 h2
  simp only [MessageContent.decode]
  rw [h]
  simp [h1, h2]

theorem c9_sampling_content_closed_witness :
    MessageContent.decode (.obj (.cons "type" (.str "blob") .nil)) =
      .error "unknown variant" :=
  c9_sampling_content_closed.2 "blob" (.cons "type" (.str "blob") .nil) _
    rfl (by decide) (by decide)

/-- Claim C10: an explicit `"error": null` beside a populated `"result"` is
tolerated: the `Option<McpError>` field decodes null to `None`, so the
response decodes successfully with `error` absent and `result` populated. -/
theorem c10_null_error_tolerated :
    ∀ id : RequestId, id.inRange = true →
      JsonRpcResponse.decode (.obj (.cons "jsonrpc" (.str "2.0")
        (.cons "id" (RequestId.encode id) (.cons "result" (.obj .nil)
          (.cons "error" .null .nil))))) =
      .ok ⟨"2.0", id, some (.obj .nil), none⟩ := by
  intro id h
  simp [JsonRpcResponse.decode, respGo, RequestId.encode_decode_id h,
    decodeOptValue, decodeOptMcpError, canonicalize, canonPairs, insFold]

theorem c10_null_error_tolerated_witness :
    JsonRpcResponse.decode (.obj (.cons "jsonrpc" (.str "2.0")
      (.cons "id" (RequestId.encode (.String "x")) (.cons "result" (.obj .nil)
        (.cons "error" .null .nil))))) =
    .ok ⟨"2.0", .String "x", some (.obj .nil), none⟩ :=
  c10_null_error_tolerated (.String "x") rfl
